import Mathlib

/-!
Shallow embedding of the n-gram language model of
`Assignement_1_Language_modeling.ipynb`.

Python strings are modelled as `List Char` so that the exact semantics of
`str.split(' ')` (single-space separator, adjacent separators yielding empty
tokens, `''.split(' ') == ['']`) is captured faithfully.  Python float
arithmetic is modelled with exact rationals `ℚ`.  `nltk.FreqDist` counting is
modelled with `List.count`, whose absent keys resolve to 0, matching
`FreqDist.__getitem__`; the set of `FreqDist` keys is `List.dedup`
(first-occurrence order), and `nltk.ngrams` is the sliding window of the given
length (empty for window length 0, as `zip` over zero tees).
-/

namespace NGramLM

/-- A Python string, modelled as its list of characters. -/
abbrev PyStr := List Char

/-- Source constant `SOS = "<s> "` (note the trailing space). -/
def SOS : PyStr := "<s> ".toList

/-- Source constant `EOS = "</s>"`. -/
def EOS : PyStr := "</s>".toList

/-- Source constant `UNK = "<UNK>"`. -/
def UNK : PyStr := "<UNK>".toList

/-- The start-of-sequence token as it appears in the token stream after
splitting, i.e. `SOS` without its trailing space. -/
def sosTok : PyStr := "<s>".toList

/-- Python `' '.join(strings)`: interleave a single space character between
consecutive strings. -/
def joinSp : List PyStr → PyStr
  | [] => []
  | [s] => s
  | s :: t :: rest => s ++ ' ' :: joinSp (t :: rest)

/-- Python `s.split(' ')`: split at every single space character; adjacent
separators produce empty tokens and `''.split(' ') == ['']`. -/
def splitSp : PyStr → List PyStr
  | [] => [[]]
  | c :: rest =>
    if c = ' ' then [] :: splitSp rest
    else
      match splitSp rest with
      | [] => [[c]]
      | t :: ts => (c :: t) :: ts

/-- Source `add_sentence_tokens(sentences, n)`:
`sos = SOS * (n-1) if n > 1 else SOS` and
`['{}{} {}'.format(sos, s, EOS) for s in sentences]`. -/
def add_sentence_tokens (sentences : List PyStr) (n : Nat) : List PyStr :=
  let sos := if 1 < n then (List.replicate (n - 1) SOS).flatten else SOS
  sentences.map fun s => sos ++ s ++ ' ' :: EOS

/-- Source `replace_singletons(tokens)`: `vocab = nltk.FreqDist(tokens)` and
`[token if vocab[token] > 1 else UNK for token in tokens]`. -/
def replace_singletons (tokens : List PyStr) : List PyStr :=
  tokens.map fun token => if 1 < tokens.count token then token else UNK

/-- Source `preprocess(sentences, n)`: wrap with sentence tokens, join on a
single space, split on a single space, and replace singleton tokens. -/
def preprocess (sentences : List PyStr) (n : Nat) : List PyStr :=
  replace_singletons (splitSp (joinSp (add_sentence_tokens sentences n)))

/-- `nltk.ngrams(tokens, k)`: all contiguous windows of length `k`
(none when `k = 0`, matching `zip` over zero tees). -/
def ngrams (tokens : List PyStr) (k : Nat) : List (List PyStr) :=
  if k = 0 then []
  else (List.range (tokens.length + 1 - k)).map fun i => (tokens.drop i).take k

/-- `len(self.vocab)` where `vocab = nltk.FreqDist(tokens)`: the number of
distinct tokens of the stream. -/
def vocabSize (tokens : List PyStr) : Nat := tokens.dedup.length

/-- Source `LanguageModel._smooth`: map every observed n-gram to
`(n_count + laplace) / (m_count + laplace * vocab_size)` where the context
count `m_vocab[n_gram[:-1]]` is looked up in the (n-1)-gram frequency table
(0 when absent). -/
def smooth (tokens : List PyStr) (n : Nat) (laplace : ℚ) : List (List PyStr × ℚ) :=
  ((ngrams tokens n).dedup).map fun g =>
    (g, (((ngrams tokens n).count g : ℚ) + laplace) /
        (((ngrams tokens (n - 1)).count g.dropLast : ℚ) + laplace * (vocabSize tokens : ℚ)))

/-- Source `LanguageModel._create_model`: for `n == 1` the relative frequency
`count / num_tokens` of every vocabulary token, otherwise `_smooth`. -/
def create_model (tokens : List PyStr) (n : Nat) (laplace : ℚ) : List (List PyStr × ℚ) :=
  if n = 1 then
    tokens.dedup.map fun t => ([t], ((tokens.count t : ℚ) / (tokens.length : ℚ)))
  else smooth tokens n laplace

/-- `itertools.product((0,1), repeat=n)` in its enumeration order. -/
def prodBits : Nat → List (List Nat)
  | 0 => [[]]
  | k + 1 => ((prodBits k).map fun t => 0 :: t) ++ ((prodBits k).map fun t => 1 :: t)

/-- The state built by `LanguageModel.__init__`. -/
structure LanguageModel where
  n : Nat
  laplace : ℚ
  tokens : List PyStr
  model : List (List PyStr × ℚ)
  masks : List (List Nat)

/-- Source `LanguageModel.__init__(train_data, n, laplace)`: store `n` and
`laplace`, preprocess the corpus, build the probability table, and compute
`list(reversed(list(product((0,1), repeat=n))))`.  The source performs no
validation of `n` and raises nothing itself. -/
def LanguageModel.init (train_data : List PyStr) (n : Nat) (laplace : ℚ) :
    LanguageModel :=
  let tokens := preprocess train_data n
  { n := n
    laplace := laplace
    tokens := tokens
    model := create_model tokens n laplace
    masks := (prodBits n).reverse }

/-- Lookup in the probability table (a Python dict keyed by n-gram). -/
def probLookup (model : List (List PyStr × ℚ)) (g : List PyStr) : Option ℚ :=
  (model.find? fun kv => decide (kv.1 = g)).map Prod.snd

/-- Modelled from the spec: the class docstring and the call sites reference a
`probability` method that is absent from the notebook.  Per the spec it
"returns the table's precomputed value if present; otherwise computes it via
the smoothing formula using live counts", the context being the n-gram's first
n-1 tokens and absent counts defaulting to 0. -/
def LanguageModel.probability (M : LanguageModel) (g : List PyStr) : ℚ :=
  match probLookup M.model g with
  | some p => p
  | none =>
      (((ngrams M.tokens M.n).count g : ℚ) + M.laplace) /
        (((ngrams M.tokens (M.n - 1)).count (g.take (M.n - 1)) : ℚ)
          + M.laplace * (vocabSize M.tokens : ℚ))

/-- Modelled from the spec: `best_candidate` is absent from the notebook.  Per
the spec it enumerates every vocabulary token as a candidate continuation of
the context and returns one of maximal probability, with a fixed deterministic
tie-break (here: the earliest such candidate in first-occurrence vocabulary
order). -/
def best_candidate (M : LanguageModel) (context : List PyStr) :
    List PyStr → Option (PyStr × ℚ)
  | [] => none
  | c :: cs =>
      let p := M.probability (context ++ [c])
      match best_candidate M context cs with
      | none => some (c, p)
      | some (b, q) => if q > p then some (b, q) else some (c, p)

/-- Modelled from the spec: the extension loop of sentence generation.  While
the end marker has not been produced and fewer than `maxLen` tokens have been
emitted, extend the sequence with the best candidate over the vocabulary
(suppressing the end marker while fewer than `minLen` tokens were emitted),
multiplying the chosen probability into the running sentence probability. -/
def genExtend (M : LanguageModel) (minLen maxLen : Nat) :
    Nat → List PyStr → Nat → ℚ → List PyStr × ℚ
  | 0, seq, _, p => (seq, p)
  | fuel + 1, seq, emitted, p =>
      if maxLen ≤ emitted then (seq, p)
      else
        let cands :=
          if emitted < minLen then M.tokens.dedup.filter fun t => decide (t ≠ EOS)
          else M.tokens.dedup
        match best_candidate M (seq.drop (seq.length + 1 - M.n)) cands with
        | none => (seq, p)
        | some (t, q) =>
            if t = EOS then (seq ++ [t], p * q)
            else genExtend M minLen maxLen fuel (seq ++ [t]) (emitted + 1) (p * q)

/-- Modelled from the spec: generate one sentence by seeding the context with
n-1 start markers and repeatedly extending with the best candidate until the
end marker or the maximal length. -/
def generate_sentence (M : LanguageModel) (minLen maxLen : Nat) : List PyStr × ℚ :=
  genExtend M minLen maxLen (maxLen + 1) (List.replicate (M.n - 1) sosTok) 0 1

/-- Modelled from the spec: `generate_sentences` is absent from the notebook
although the class docstring and a notebook cell reference it.  Per the spec
it produces `count` generated (sentence, probability) pairs, each produced by
the same deterministic argmax extension. -/
def generate_sentences (M : LanguageModel) (count minLen maxLen : Nat) :
    List (List PyStr × ℚ) :=
  List.replicate count (generate_sentence M minLen maxLen)

/-- Whether a character is whitespace in the sense of Python `str.split()`
(no separator argument). -/
def isWsChar (c : Char) : Bool :=
  c = ' ' || c = '\t' || c = '\n' || c = '\r'

/-- Split on runs of whitespace, discarding empty tokens, as Python
`str.split()` does.  This renders the claim wording "splits on whitespace";
it is a spec-side definition used only to compare with the source's
single-space split. -/
def splitWsAux : List Char → List Char → List PyStr
  | [], acc => if acc = [] then [] else [acc.reverse]
  | c :: rest, acc =>
      if isWsChar c then
        if acc = [] then splitWsAux rest []
        else acc.reverse :: splitWsAux rest []
      else splitWsAux rest (c :: acc)

/-- Split a string on whitespace, per the claim's wording. -/
def splitWs (s : PyStr) : List PyStr := splitWsAux s []

/-- The preprocessing pipeline exactly as the claim words it: wrap each
sentence with sentence tokens, join on single spaces, split on whitespace,
and replace singleton tokens.  Spec-side definition for comparison with
`preprocess`. -/
def preprocessClaimed (sentences : List PyStr) (n : Nat) : List PyStr :=
  replace_singletons (splitWs (joinSp (add_sentence_tokens sentences n)))

/-- A Python exception surfaced on the construction path.  The repository
itself raises nothing, so the only possible failure is external:
`itertools.tee(seq, k)` (inside `nltk.ngrams`) raises a ValueError when its
count `k` is negative.  The `configurationError` constructor renders the
error the spec predicts; no such type exists anywhere in the code, so no
execution produces it. -/
inductive PyExc where
  | valueErrorTeeNegative : PyExc
  | configurationError : PyExc
deriving DecidableEq

/-- `nltk.ngrams(tokens, k)` over an integer window length, with the external
failure made explicit: `tee(seq, k)` raises ValueError for `k < 0`, yields no
window for `k = 0`, and yields the sliding windows otherwise (the same
tee-based semantics as `ngrams`). -/
def ngramsInt (tokens : List PyStr) (k : Int) :
    Except PyExc (List (List PyStr)) :=
  if k < 0 then .error .valueErrorTeeNegative
  else .ok (ngrams tokens k.toNat)

/-- `add_sentence_tokens` over an integer order: `SOS * (n-1) if n > 1 else
SOS`, with Python string repetition empty for non-positive counts. -/
def add_sentence_tokensInt (sentences : List PyStr) (n : Int) : List PyStr :=
  let sos := if 1 < n then (List.replicate (n - 1).toNat SOS).flatten else SOS
  sentences.map fun s => sos ++ s ++ ' ' :: EOS

/-- `preprocess` over an integer order. -/
def preprocessInt (sentences : List PyStr) (n : Int) : List PyStr :=
  replace_singletons (splitSp (joinSp (add_sentence_tokensInt sentences n)))

/-- `LanguageModel._smooth` over an integer order, with the two external
`nltk.ngrams` calls made in source order: `n_grams = nltk.ngrams(tokens, n)`
first, then `m_grams = nltk.ngrams(tokens, n - 1)`; a ValueError from either
propagates out of the method. -/
def smoothInt (tokens : List PyStr) (n : Int) (laplace : ℚ) :
    Except PyExc (List (List PyStr × ℚ)) := do
  let ngl ← ngramsInt tokens n
  let mgl ← ngramsInt tokens (n - 1)
  .ok (ngl.dedup.map fun g =>
    (g, ((ngl.count g : ℚ) + laplace) /
        ((mgl.count g.dropLast : ℚ) + laplace * (vocabSize tokens : ℚ))))

/-- `LanguageModel._create_model` over an integer order. -/
def create_modelInt (tokens : List PyStr) (n : Int) (laplace : ℚ) :
    Except PyExc (List (List PyStr × ℚ)) :=
  if n = 1 then
    .ok (tokens.dedup.map fun t =>
      ([t], ((tokens.count t : ℚ) / (tokens.length : ℚ))))
  else smoothInt tokens n laplace

/-- `LanguageModel.__init__` over an integer order, with the external failure
channel.  A ValueError raised while the model dict is built (the
`self.model = self._create_model()` line) propagates out of the constructor
before `masks` is computed; otherwise construction completes as in `init`. -/
def LanguageModel.initInt (train_data : List PyStr) (n : Int) (laplace : ℚ) :
    Except PyExc LanguageModel :=
  match create_modelInt (preprocessInt train_data n) n laplace with
  | .error e => .error e
  | .ok model =>
      .ok { n := n.toNat
            laplace := laplace
            tokens := preprocessInt train_data n
            model := model
            masks := (prodBits n.toNat).reverse }

/-! ## Structural lemmas about the single-space split -/

theorem splitSp_ne_nil (s : PyStr) : splitSp s ≠ [] := by
  cases s with
  | nil => simp [splitSp]
  | cons c rest =>
    simp only [splitSp]
    split
    · simp
    · split <;> simp

theorem splitSp_cons_space (rest : PyStr) :
    splitSp (' ' :: rest) = [] :: splitSp rest := by
  simp [splitSp]

theorem splitSp_cons_other (c : Char) (rest : PyStr) (hc : ¬ c = ' ') :
    splitSp (c :: rest) =
      match splitSp rest with
      | [] => [[c]]
      | t :: ts => (c :: t) :: ts := by
  simp [splitSp, hc]

theorem splitSp_append_space (a b : PyStr) :
    splitSp (a ++ ' ' :: b) = splitSp a ++ splitSp b := by
  induction a with
  | nil =>
    rw [List.nil_append, splitSp_cons_space]
    rfl
  | cons c a ih =>
    by_cases hc : c = ' '
    · subst hc
      rw [List.cons_append, splitSp_cons_space, splitSp_cons_space, ih,
        List.cons_append]
    · have h1 := splitSp_ne_nil a
      cases h : splitSp a with
      | nil => exact absurd h h1
      | cons t ts =>
        rw [List.cons_append, splitSp_cons_other c _ hc, splitSp_cons_other c _ hc,
          ih, h, List.cons_append]
        rfl

theorem splitSp_joinSp (l : List PyStr) (h : l ≠ []) :
    splitSp (joinSp l) = (l.map splitSp).flatten := by
  induction l with
  | nil => exact absurd rfl h
  | cons s rest ih =>
    cases rest with
    | nil => simp [joinSp]
    | cons t ts =>
      simp only [joinSp, splitSp_append_space, ih (by simp), List.map_cons,
        List.flatten_cons]

theorem splitSp_sos_repeat (m : Nat) (rest : PyStr) :
    splitSp ((List.replicate m SOS).flatten ++ rest) =
      List.replicate m sosTok ++ splitSp rest := by
  induction m with
  | zero => simp
  | succ m ih =>
    have hsos : SOS = sosTok ++ [' '] := by decide
    calc splitSp ((List.replicate (m + 1) SOS).flatten ++ rest)
        = splitSp (sosTok ++ ' ' :: ((List.replicate m SOS).flatten ++ rest)) := by
          rw [List.replicate_succ, List.flatten_cons, hsos]
          simp [List.append_assoc]
      _ = splitSp sosTok ++ splitSp ((List.replicate m SOS).flatten ++ rest) :=
          splitSp_append_space _ _
      _ = List.replicate (m + 1) sosTok ++ splitSp rest := by
          rw [ih]
          have : splitSp sosTok = [sosTok] := by decide
          rw [this, List.replicate_succ]
          simp

theorem splitSp_wrapped (s : PyStr) (n : Nat) :
    splitSp ((if 1 < n then (List.replicate (n - 1) SOS).flatten else SOS)
        ++ s ++ ' ' :: EOS) =
      List.replicate (if 1 < n then n - 1 else 1) sosTok ++ splitSp s ++ [EOS] := by
  have hend : splitSp (s ++ ' ' :: EOS) = splitSp s ++ [EOS] := by
    rw [splitSp_append_space]
    have : splitSp EOS = [EOS] := by decide
    rw [this]
  by_cases hn : 1 < n
  · rw [if_pos hn, if_pos hn, List.append_assoc, splitSp_sos_repeat, hend,
      List.append_assoc]
  · rw [if_neg hn, if_neg hn]
    have hone : SOS ++ s ++ ' ' :: EOS
        = (List.replicate 1 SOS).flatten ++ (s ++ ' ' :: EOS) := by
      simp [List.append_assoc]
    rw [hone, splitSp_sos_repeat, hend]
    simp

theorem preprocess_ne_nil (sentences : List PyStr) (n : Nat) :
    preprocess sentences n ≠ [] := by
  unfold preprocess replace_singletons
  intro h
  rw [List.map_eq_nil_iff] at h
  exact splitSp_ne_nil _ h

/-! ## Structural lemmas about sliding windows and counts -/

theorem ngrams_nil (k : Nat) : ngrams [] k = [] := by
  by_cases hk : k = 0
  · simp [ngrams, hk]
  · simp only [ngrams, if_neg hk]
    simp
    omega

theorem ngrams_cons (a : PyStr) (l : List PyStr) (k : Nat) (hk : 1 ≤ k)
    (hlen : k ≤ l.length + 1) :
    ngrams (a :: l) k = ((a :: l).take k) :: ngrams l k := by
  unfold ngrams
  rw [if_neg (by omega), if_neg (by omega)]
  have hlen2 : (a :: l).length + 1 - k = (l.length + 1 - k) + 1 := by
    simp only [List.length_cons]
    omega
  rw [hlen2, List.range_succ_eq_map, List.map_cons, List.map_map]
  have htail :
      List.map ((fun i => ((a :: l).drop i).take k) ∘ Nat.succ)
          (List.range (l.length + 1 - k))
        = List.map (fun i => (l.drop i).take k) (List.range (l.length + 1 - k)) := by
    apply List.map_congr_left
    intro i _
    simp [Function.comp, Nat.succ_eq_add_one]
  rw [htail]
  simp

theorem ngrams_cons_short (a : PyStr) (l : List PyStr) (k : Nat)
    (hlen : l.length + 1 < k) :
    ngrams (a :: l) k = [] := by
  by_cases hk : k = 0
  · simp [ngrams, hk]
  · simp only [ngrams, if_neg hk]
    simp
    omega

theorem length_of_mem_ngrams (toks : List PyStr) (k : Nat) (hk : 1 ≤ k)
    (g : List PyStr) (hg : g ∈ ngrams toks k) : g.length = k := by
  unfold ngrams at hg
  rw [if_neg (by omega)] at hg
  obtain ⟨i, hi, rfl⟩ := List.mem_map.1 hg
  rw [List.mem_range] at hi
  simp only [List.length_take, List.length_drop]
  omega

theorem mem_ngrams_one_imp (toks : List PyStr) (g : List PyStr)
    (hg : g ∈ ngrams toks 1) : ∃ x ∈ toks, g = [x] := by
  induction toks with
  | nil => rw [ngrams_nil] at hg; cases hg
  | cons a l ih =>
    rw [ngrams_cons a l 1 le_rfl (by omega)] at hg
    rcases List.mem_cons.1 hg with h | h
    · exact ⟨a, by simp, by simpa using h⟩
    · obtain ⟨x, hx, rfl⟩ := ih h
      exact ⟨x, by simp [hx], rfl⟩

theorem count_context_ge (toks : List PyStr) (k : Nat) (hk : 1 ≤ k)
    (g : List PyStr) (hg : g.length = k + 1) :
    (ngrams toks (k + 1)).count g ≤ (ngrams toks k).count g.dropLast := by
  induction toks with
  | nil => simp [ngrams_nil]
  | cons a l ih =>
    by_cases h1 : k + 1 ≤ l.length + 1
    · rw [ngrams_cons a l (k + 1) (by omega) h1,
        ngrams_cons a l k (by omega) (by omega)]
      have key : (a :: l).take (k + 1) = g → (a :: l).take k = g.dropLast := by
        intro he
        have hdl : g.dropLast = g.take k := by
          rw [List.dropLast_eq_take, hg]
          simp
        rw [hdl, ← he, List.take_take]
        congr 1
        omega
      rw [List.count_cons, List.count_cons]
      by_cases hx : (a :: l).take (k + 1) = g
      · have h2 := key hx
        simp only [hx, h2, beq_self_eq_true, if_pos]
        omega
      · by_cases hy : (a :: l).take k = g.dropLast
        · simp only [beq_iff_eq, hx, hy, if_false, if_true]
          omega
        · simp only [beq_iff_eq, hx, hy, if_false]
          omega
    · rw [ngrams_cons_short a l (k + 1) (by omega)]
      simp

theorem count_le_count_map (f : PyStr → PyStr) (l : List PyStr) (t : PyStr)
    (hf : f t = t) : l.count t ≤ (l.map f).count t := by
  induction l with
  | nil => simp
  | cons a l ih =>
    rw [List.map_cons, List.count_cons, List.count_cons]
    by_cases ha : a = t
    · subst ha
      rw [hf]
      simp only [beq_self_eq_true, if_pos]
      omega
    · by_cases hb : f a = t
      · simp only [beq_iff_eq, ha, hb, if_false, if_true]
        omega
      · simp only [beq_iff_eq, ha, hb, if_false]
        omega

/-! ## Lookup lemmas for the probability table -/

theorem probLookup_cons (kv : List PyStr × ℚ) (rest : List (List PyStr × ℚ))
    (g : List PyStr) :
    probLookup (kv :: rest) g =
      if kv.1 = g then some kv.2 else probLookup rest g := by
  by_cases h : kv.1 = g
  · rw [if_pos h]
    unfold probLookup
    rw [List.find?_cons_of_pos _ (by simpa using h)]
    rfl
  · rw [if_neg h]
    unfold probLookup
    rw [List.find?_cons_of_neg _ (by simpa using h)]

theorem probLookup_map_keys (f : List PyStr → ℚ) (keys : List (List PyStr))
    (g : List PyStr) :
    probLookup (keys.map fun x => (x, f x)) g =
      if g ∈ keys then some (f g) else none := by
  induction keys with
  | nil => simp [probLookup]
  | cons a ks ih =>
    rw [List.map_cons, probLookup_cons]
    by_cases hag : a = g
    · subst hag
      simp
    · simp only [ih, List.mem_cons]
      rw [if_neg hag]
      by_cases hg : g ∈ ks
      · rw [if_pos hg, if_pos (Or.inr hg)]
      · rw [if_neg hg, if_neg ?_]
        rintro (h | h)
        · exact hag h.symm
        · exact hg h

theorem probLookup_map_keys_some (f : List PyStr → ℚ) (keys : List (List PyStr))
    (g : List PyStr) (p : ℚ)
    (h : probLookup (keys.map fun x => (x, f x)) g = some p) :
    g ∈ keys ∧ p = f g := by
  rw [probLookup_map_keys] at h
  by_cases hg : g ∈ keys
  · rw [if_pos hg] at h
    exact ⟨hg, (Option.some.inj h).symm⟩
  · rw [if_neg hg] at h
    cases h

theorem probLookup_unigram (h : PyStr → ℚ) (keys : List PyStr) (t : PyStr) :
    probLookup (keys.map fun x => ([x], h x)) [t] =
      if t ∈ keys then some (h t) else none := by
  induction keys with
  | nil => simp [probLookup]
  | cons a ks ih =>
    rw [List.map_cons, probLookup_cons]
    by_cases hat : a = t
    · subst hat
      simp
    · have hne : ¬ ([a] = [t]) := by simpa using hat
      simp only [hne, if_false, ih, List.mem_cons]
      by_cases hg : t ∈ ks
      · rw [if_pos hg, if_pos (Or.inr hg)]
      · rw [if_neg hg, if_neg ?_]
        rintro (h | h)
        · exact hat h.symm
        · exact hg h

theorem probLookup_unigram_some (h : PyStr → ℚ) (keys : List PyStr)
    (g : List PyStr) (p : ℚ)
    (hl : probLookup (keys.map fun x => ([x], h x)) g = some p) :
    ∃ t, g = [t] ∧ t ∈ keys ∧ p = h t := by
  induction keys with
  | nil => simp [probLookup] at hl
  | cons a ks ih =>
    rw [List.map_cons, probLookup_cons] at hl
    by_cases hag : [a] = g
    · rw [if_pos hag] at hl
      exact ⟨a, hag.symm, by simp, by simpa using (Option.some.inj hl).symm⟩
    · rw [if_neg hag] at hl
      obtain ⟨t, h1, h2, h3⟩ := ih hl
      exact ⟨t, h1, by simp [h2], h3⟩

/-! ## The raw token stream produced by wrapping, joining and splitting -/

theorem raw_stream_eq (sentences : List PyStr) (n : Nat) (h : sentences ≠ []) :
    splitSp (joinSp (add_sentence_tokens sentences n)) =
      (sentences.map fun s =>
        List.replicate (if 1 < n then n - 1 else 1) sosTok
          ++ splitSp s ++ [EOS]).flatten := by
  unfold add_sentence_tokens
  rw [splitSp_joinSp _ (by simpa using h), List.map_map]
  congr 1
  apply List.map_congr_left
  intro s _
  exact splitSp_wrapped s n

theorem replace_singletons_claim_form (raw : List PyStr) :
    replace_singletons raw = raw.map fun t => if raw.count t = 1 then UNK else t := by
  unfold replace_singletons
  apply List.map_congr_left
  intro t ht
  have h1 : 1 ≤ raw.count t := List.count_pos_iff.2 ht
  by_cases h : 1 < raw.count t
  · rw [if_pos h, if_neg (by omega)]
  · rw [if_neg h, if_pos (by omega)]

/-- C4 counterexample: on the sentence `"a  b"` (two adjacent spaces) the code,
which uses Python `split(' ')`, produces an empty-string token and hence a
5-token preprocessed stream, while the pipeline exactly as claimed — splitting
the joined text on whitespace — produces a 4-token stream. -/
theorem C4_counterexample_whitespace_split :
    ¬ (preprocess ["a  b".toList] 2 = preprocessClaimed ["a  b".toList] 2) := by
  decide

/-- C4 as amended: for every non-empty sentence list and target order n ≥ 1,
preprocessing (a) prepends n−1 start-marker tokens to each sentence (exactly 1
when n = 1) and appends exactly one end-marker token, (b) splits each sentence
on single space characters — not on general whitespace, so adjacent spaces
yield empty-string tokens — and concatenates the wrapped sentences into the
raw token stream, and (c) replaces every token whose frequency in that raw
stream equals 1 with the unknown marker, leaving all other tokens unchanged. -/
theorem C4_single_space_split_pipeline (sentences : List PyStr) (n : Nat)
    (hn : 1 ≤ n) (hne : sentences ≠ []) :
    preprocess sentences n =
      (let raw := (sentences.map fun s =>
          List.replicate (if 1 < n then n - 1 else 1) sosTok
            ++ splitSp s ++ [EOS]).flatten
       raw.map fun t => if raw.count t = 1 then UNK else t) := by
  show preprocess sentences n = _
  unfold preprocess
  rw [raw_stream_eq sentences n hne, replace_singletons_claim_form]

/-- C4 witness: the amended pipeline agrees with the code on a concrete
non-empty sentence list. -/
theorem C4_witness :
    (1 ≤ 2) ∧ (["a b".toList] ≠ ([] : List PyStr)) ∧
      preprocess ["a b".toList] 2 =
        (let raw := (["a b".toList].map fun s =>
            List.replicate (if 1 < 2 then 2 - 1 else 1) sosTok
              ++ splitSp s ++ [EOS]).flatten
         raw.map fun t => if raw.count t = 1 then UNK else t) :=
  ⟨by decide, by decide,
    C4_single_space_split_pipeline ["a b".toList] 2 (by decide) (by decide)⟩

/-- C6: the claim is right and the code is wrong.  For the empty sentence
list the spec demands an empty token stream, but the code computes
`' '.join([]).split(' ') == ['']` and then replaces the singleton empty-string
token with the unknown marker, so `preprocess([], n)` returns the one-token
stream `['<UNK>']` for every order n. -/
theorem C6_empty_corpus_inserts_unk (n : Nat) :
    preprocess [] n = [UNK] ∧ preprocess [] n ≠ [] := by
  have h1 : preprocess [] n = [UNK] := rfl
  refine ⟨h1, ?_⟩
  rw [h1]
  decide

/-- C10: `replace_singletons` maps positions one-to-one: it preserves the
length of its input, the element at each position is the original token there
when that token occurs more than once in the whole input and the unknown
marker otherwise, and consequently the preprocessed stream has the same
length as the raw whitespace-split stream it is derived from. -/
theorem C10_replace_singletons_pointwise (tokens : List PyStr) (i : Nat)
    (h : i < tokens.length) (sentences : List PyStr) (n : Nat) :
    (replace_singletons tokens).length = tokens.length ∧
    (replace_singletons tokens).get ⟨i, by simpa [replace_singletons] using h⟩ =
      (if 1 < tokens.count (tokens.get ⟨i, h⟩) then tokens.get ⟨i, h⟩ else UNK) ∧
    (preprocess sentences n).length =
      (splitSp (joinSp (add_sentence_tokens sentences n))).length := by
  refine ⟨by simp [replace_singletons], ?_, by simp [preprocess, replace_singletons]⟩
  simp [replace_singletons, List.get_eq_getElem, List.getElem_map]

/-- C10 witness: the pointwise description holds on a concrete stream at a
concrete position. -/
theorem C10_witness :
    (0 < (["x".toList, "x".toList, "y".toList] : List PyStr).length) ∧
      ((replace_singletons ["x".toList, "x".toList, "y".toList]).length
          = (["x".toList, "x".toList, "y".toList] : List PyStr).length ∧
        (replace_singletons ["x".toList, "x".toList, "y".toList]).get
            ⟨0, by simpa [replace_singletons] using
              (by decide : 0 < (["x".toList, "x".toList, "y".toList] : List PyStr).length)⟩ =
          (if 1 < (["x".toList, "x".toList, "y".toList] : List PyStr).count
              ((["x".toList, "x".toList, "y".toList] : List PyStr).get ⟨0, by decide⟩)
            then (["x".toList, "x".toList, "y".toList] : List PyStr).get ⟨0, by decide⟩
            else UNK) ∧
        (preprocess ["q".toList] 1).length =
          (splitSp (joinSp (add_sentence_tokens ["q".toList] 1))).length) :=
  ⟨by decide,
    C10_replace_singletons_pointwise ["x".toList, "x".toList, "y".toList] 0
      (by decide) ["q".toList] 1⟩

/-- C5: in the token stream produced by preprocessing, every token other than
the reserved start, end and unknown markers occurs at least twice; singleton
tokens have been collapsed into the unknown marker. -/
theorem C5_non_marker_tokens_occur_twice (sentences : List PyStr) (n : Nat)
    (t : PyStr) (hmem : t ∈ preprocess sentences n)
    (hsos : t ≠ sosTok) (heos : t ≠ EOS) (hunk : t ≠ UNK) :
    2 ≤ (preprocess sentences n).count t := by
  have hpre : preprocess sentences n
      = (splitSp (joinSp (add_sentence_tokens sentences n))).map
          (fun token =>
            if 1 < (splitSp (joinSp (add_sentence_tokens sentences n))).count token
            then token else UNK) := rfl
  set raw := splitSp (joinSp (add_sentence_tokens sentences n)) with hraw
  rw [hpre] at hmem ⊢
  obtain ⟨r, hr, hrt⟩ := List.mem_map.1 hmem
  have hrt2 : (if 1 < raw.count r then r else UNK) = t := hrt
  by_cases hc : 1 < raw.count r
  · rw [if_pos hc] at hrt2
    subst hrt2
    have hf : (fun token => if 1 < raw.count token then token else UNK) r = r := by
      show (if 1 < raw.count r then r else UNK) = r
      rw [if_pos hc]
    have hge := count_le_count_map
      (fun token => if 1 < raw.count token then token else UNK) raw r hf
    omega
  · rw [if_neg hc] at hrt2
    exact absurd hrt2.symm hunk

/-- C5 witness: a concrete non-marker token of a concrete preprocessed stream
occurs at least twice. -/
theorem C5_witness :
    ("a".toList ∈ preprocess ["a b a b".toList] 2) ∧
      ("a".toList ≠ sosTok) ∧ ("a".toList ≠ EOS) ∧ ("a".toList ≠ UNK) ∧
      2 ≤ (preprocess ["a b a b".toList] 2).count "a".toList :=
  ⟨by decide, by decide, by decide, by decide,
    C5_non_marker_tokens_occur_twice ["a b a b".toList] 2 "a".toList
      (by decide) (by decide) (by decide) (by decide)⟩

/-! ## The stored probability table -/

/-- C1: for every trained model of order n > 1 and every n-gram observed in
the preprocessed training stream, the stored probability equals
(count(ngram) + λ) / (count(prefix(ngram)) + λ × |vocabulary|), where the
prefix is the n-gram's first n−1 tokens, its count is looked up in the
(n−1)-gram table over the same stream (0 if absent), and |vocabulary| is the
number of distinct tokens after preprocessing. -/
theorem C1_stored_smoothed_probability (train : List PyStr) (n : Nat) (lam : ℚ)
    (hn : 1 < n) (g : List PyStr)
    (hg : g ∈ ngrams (preprocess train n) n) :
    probLookup (LanguageModel.init train n lam).model g =
      some ((((ngrams (preprocess train n) n).count g : ℚ) + lam) /
        (((ngrams (preprocess train n) (n - 1)).count (g.take (n - 1)) : ℚ)
          + lam * (vocabSize (preprocess train n) : ℚ))) := by
  have hmodel : (LanguageModel.init train n lam).model
      = create_model (preprocess train n) n lam := rfl
  rw [hmodel]
  unfold create_model
  rw [if_neg (by omega)]
  unfold smooth
  rw [probLookup_map_keys, if_pos (List.mem_dedup.2 hg)]
  have hlen := length_of_mem_ngrams (preprocess train n) n (by omega) g hg
  have hdl : g.dropLast = g.take (n - 1) := by
    rw [List.dropLast_eq_take, hlen]
  rw [hdl]

/-- C1 witness: the stored probability of the observed bigram ("a","b") of a
concrete bigram model is given by the smoothing formula. -/
theorem C1_witness :
    (1 < 2) ∧
      (["a".toList, "b".toList] ∈ ngrams (preprocess ["a b a b".toList] 2) 2) ∧
      probLookup (LanguageModel.init ["a b a b".toList] 2 1).model
          ["a".toList, "b".toList] =
        some ((((ngrams (preprocess ["a b a b".toList] 2) 2).count
              ["a".toList, "b".toList] : ℚ) + 1) /
          (((ngrams (preprocess ["a b a b".toList] 2) (2 - 1)).count
              (["a".toList, "b".toList].take (2 - 1)) : ℚ)
            + 1 * (vocabSize (preprocess ["a b a b".toList] 2) : ℚ))) :=
  ⟨by decide, by decide,
    C1_stored_smoothed_probability ["a b a b".toList] 2 1 (by decide)
      ["a".toList, "b".toList] (by decide)⟩

/-- C2: for a trained model of order n = 1, the probability assigned to each
vocabulary token is its count divided by the total token count of the
preprocessed stream; the smoothing constant does not appear. -/
theorem C2_unigram_relative_frequency (train : List PyStr) (lam : ℚ) (t : PyStr)
    (ht : t ∈ (preprocess train 1).dedup) :
    probLookup (LanguageModel.init train 1 lam).model [t] =
      some (((preprocess train 1).count t : ℚ)
        / ((preprocess train 1).length : ℚ)) := by
  have hmodel : (LanguageModel.init train 1 lam).model
      = create_model (preprocess train 1) 1 lam := rfl
  rw [hmodel]
  unfold create_model
  rw [if_pos rfl, probLookup_unigram, if_pos ht]

/-- C2 witness: the unigram probability of a concrete vocabulary token equals
its relative frequency, independently of the smoothing constant. -/
theorem C2_witness :
    ("a".toList ∈ (preprocess ["a b a b".toList] 1).dedup) ∧
      probLookup (LanguageModel.init ["a b a b".toList] 1 7).model ["a".toList] =
        some (((preprocess ["a b a b".toList] 1).count "a".toList : ℚ)
          / ((preprocess ["a b a b".toList] 1).length : ℚ)) :=
  ⟨by decide,
    C2_unigram_relative_frequency ["a b a b".toList] 7 "a".toList (by decide)⟩

/-! ## Projections of the constructed model -/

theorem init_tokens (train : List PyStr) (n : Nat) (lam : ℚ) :
    (LanguageModel.init train n lam).tokens = preprocess train n := rfl

theorem init_n (train : List PyStr) (n : Nat) (lam : ℚ) :
    (LanguageModel.init train n lam).n = n := rfl

theorem init_laplace (train : List PyStr) (n : Nat) (lam : ℚ) :
    (LanguageModel.init train n lam).laplace = lam := rfl

theorem init_model (train : List PyStr) (n : Nat) (lam : ℚ) :
    (LanguageModel.init train n lam).model
      = create_model (preprocess train n) n lam := rfl

theorem one_le_vocabSize (sentences : List PyStr) (n : Nat) :
    1 ≤ vocabSize (preprocess sentences n) := by
  unfold vocabSize
  have h := preprocess_ne_nil sentences n
  have hd : (preprocess sentences n).dedup ≠ [] := by
    intro hd
    exact h ((List.dedup_eq_nil _).1 hd)
  cases hdd : (preprocess sentences n).dedup with
  | nil => exact absurd hdd hd
  | cons a l => simp

/-! ## Probability lookups never miss -/

/-- C8: probability lookup on a trained model never fails: it returns the
table's precomputed value when the n-gram is present, and otherwise resolves
to the smoothing formula over live counts, a well-defined strictly positive
value, rather than a lookup miss. -/
theorem C8_probability_total_lookup (train : List PyStr) (n : Nat) (lam : ℚ)
    (g : List PyStr) (hlam : 0 < lam) :
    (∀ p, probLookup (LanguageModel.init train n lam).model g = some p →
        (LanguageModel.init train n lam).probability g = p) ∧
    (probLookup (LanguageModel.init train n lam).model g = none →
        (LanguageModel.init train n lam).probability g =
          (((ngrams (preprocess train n) n).count g : ℚ) + lam) /
            (((ngrams (preprocess train n) (n - 1)).count (g.take (n - 1)) : ℚ)
              + lam * (vocabSize (preprocess train n) : ℚ)) ∧
        0 < (LanguageModel.init train n lam).probability g) := by
  constructor
  · intro p hp
    simp only [LanguageModel.probability, hp]
  · intro hp
    have heq : (LanguageModel.init train n lam).probability g =
        (((ngrams (preprocess train n) n).count g : ℚ) + lam) /
          (((ngrams (preprocess train n) (n - 1)).count (g.take (n - 1)) : ℚ)
            + lam * (vocabSize (preprocess train n) : ℚ)) := by
      simp only [LanguageModel.probability, hp, init_tokens, init_n, init_laplace]
    refine ⟨heq, ?_⟩
    rw [heq]
    have hc : (0:ℚ) ≤ ((ngrams (preprocess train n) n).count g : ℚ) :=
      Nat.cast_nonneg _
    have hm : (0:ℚ) ≤
        ((ngrams (preprocess train n) (n - 1)).count (g.take (n - 1)) : ℚ) :=
      Nat.cast_nonneg _
    have hV : (1:ℚ) ≤ (vocabSize (preprocess train n) : ℚ) := by
      exact_mod_cast one_le_vocabSize train n
    have hlamV : lam ≤ lam * (vocabSize (preprocess train n) : ℚ) := by
      nlinarith
    apply div_pos <;> linarith

/-- C8 witness: on a concrete bigram model the lookup contract holds with a
positive smoothing constant. -/
theorem C8_witness :
    (0 < (1:ℚ)) ∧
      ((∀ p, probLookup (LanguageModel.init ["a b a b".toList] 2 1).model
            ["b".toList, "b".toList] = some p →
          (LanguageModel.init ["a b a b".toList] 2 1).probability
            ["b".toList, "b".toList] = p) ∧
        (probLookup (LanguageModel.init ["a b a b".toList] 2 1).model
            ["b".toList, "b".toList] = none →
          (LanguageModel.init ["a b a b".toList] 2 1).probability
              ["b".toList, "b".toList] =
            (((ngrams (preprocess ["a b a b".toList] 2) 2).count
                ["b".toList, "b".toList] : ℚ) + 1) /
              (((ngrams (preprocess ["a b a b".toList] 2) (2 - 1)).count
                  (["b".toList, "b".toList].take (2 - 1)) : ℚ)
                + 1 * (vocabSize (preprocess ["a b a b".toList] 2) : ℚ)) ∧
          0 < (LanguageModel.init ["a b a b".toList] 2 1).probability
              ["b".toList, "b".toList])) :=
  ⟨by norm_num,
    C8_probability_total_lookup ["a b a b".toList] 2 1 ["b".toList, "b".toList]
      (by norm_num)⟩

/-- C3: for a model trained on a non-empty corpus, every n-gram built from
vocabulary tokens — whether or not it was observed in training — receives a
probability strictly greater than 0 and at most 1. -/
theorem C3_probability_in_unit_interval (train : List PyStr) (n : Nat) (lam : ℚ)
    (g : List PyStr) (hn : 1 ≤ n) (hlam : 0 < lam) (htrain : train ≠ [])
    (hlen : g.length = n)
    (hvocab : ∀ t ∈ g, t ∈ (preprocess train n).dedup) :
    0 < (LanguageModel.init train n lam).probability g ∧
      (LanguageModel.init train n lam).probability g ≤ 1 := by
  have hV : (1 : ℚ) ≤ (vocabSize (preprocess train n) : ℚ) := by
    exact_mod_cast one_le_vocabSize train n
  have hlamV : lam ≤ lam * (vocabSize (preprocess train n) : ℚ) := by
    nlinarith
  cases hfind : probLookup (LanguageModel.init train n lam).model g with
  | none =>
    have heq : (LanguageModel.init train n lam).probability g =
        (((ngrams (preprocess train n) n).count g : ℚ) + lam) /
          (((ngrams (preprocess train n) (n - 1)).count (g.take (n - 1)) : ℚ)
            + lam * (vocabSize (preprocess train n) : ℚ)) := by
      simp only [LanguageModel.probability, hfind, init_tokens, init_n,
        init_laplace]
    have hc0 : (ngrams (preprocess train n) n).count g = 0 := by
      by_contra hc
      have hmem : g ∈ ngrams (preprocess train n) n :=
        List.count_pos_iff.1 (by omega)
      rcases Nat.lt_or_ge n 2 with h2 | h2
      · have hn1 : n = 1 := by omega
        subst hn1
        obtain ⟨x, hx, rfl⟩ := mem_ngrams_one_imp (preprocess train 1) g hmem
        have hxv : x ∈ (preprocess train 1).dedup := List.mem_dedup.2 hx
        have hsome : probLookup (LanguageModel.init train 1 lam).model [x] =
            some (((preprocess train 1).count x : ℚ)
              / ((preprocess train 1).length : ℚ)) := by
          rw [init_model]
          unfold create_model
          rw [if_pos rfl, probLookup_unigram, if_pos hxv]
        rw [hfind] at hsome
        cases hsome
      · have hsome : probLookup (LanguageModel.init train n lam).model g =
            some ((((ngrams (preprocess train n) n).count g : ℚ) + lam) /
              (((ngrams (preprocess train n) (n - 1)).count g.dropLast : ℚ)
                + lam * (vocabSize (preprocess train n) : ℚ))) := by
          rw [init_model]
          unfold create_model
          rw [if_neg (by omega)]
          unfold smooth
          rw [probLookup_map_keys, if_pos (List.mem_dedup.2 hmem)]
        rw [hfind] at hsome
        cases hsome
    rw [heq, hc0]
    simp only [Nat.cast_zero, zero_add]
    have hm : (0:ℚ) ≤
        ((ngrams (preprocess train n) (n - 1)).count (g.take (n - 1)) : ℚ) :=
      Nat.cast_nonneg _
    constructor
    · apply div_pos hlam
      linarith
    · rw [div_le_one (by linarith)]
      linarith
  | some p =>
    have heq : (LanguageModel.init train n lam).probability g = p := by
      simp only [LanguageModel.probability, hfind]
    rw [heq]
    rcases Nat.lt_or_ge n 2 with h2 | h2
    · have hn1 : n = 1 := by omega
      subst hn1
      have hmodel : (LanguageModel.init train 1 lam).model
          = (preprocess train 1).dedup.map fun t =>
              ([t], (((preprocess train 1).count t : ℚ)
                / ((preprocess train 1).length : ℚ))) := by
        rw [init_model]
        unfold create_model
        rw [if_pos rfl]
      rw [hmodel] at hfind
      obtain ⟨t, hgt, htk, hpt⟩ := probLookup_unigram_some _ _ _ _ hfind
      have htm : t ∈ preprocess train 1 := List.mem_dedup.1 htk
      have hc1 : 1 ≤ (preprocess train 1).count t := List.count_pos_iff.2 htm
      have hcl : (preprocess train 1).count t ≤ (preprocess train 1).length :=
        List.count_le_length t (preprocess train 1)
      have hc1q : (1:ℚ) ≤ ((preprocess train 1).count t : ℚ) := by
        exact_mod_cast hc1
      have hclq : ((preprocess train 1).count t : ℚ)
          ≤ ((preprocess train 1).length : ℚ) := by
        exact_mod_cast hcl
      constructor
      · rw [hpt]
        apply div_pos <;> linarith
      · rw [hpt, div_le_one (by linarith)]
        linarith
    · have hmodel : (LanguageModel.init train n lam).model
          = (ngrams (preprocess train n) n).dedup.map fun g2 =>
              (g2, (((ngrams (preprocess train n) n).count g2 : ℚ) + lam) /
                (((ngrams (preprocess train n) (n - 1)).count g2.dropLast : ℚ)
                  + lam * (vocabSize (preprocess train n) : ℚ))) := by
        rw [init_model]
        unfold create_model
        rw [if_neg (by omega)]
        rfl
      rw [hmodel] at hfind
      obtain ⟨hgk, hpf⟩ := probLookup_map_keys_some _ _ _ _ hfind
      have hgm : g ∈ ngrams (preprocess train n) n := List.mem_dedup.1 hgk
      have hc1 : 1 ≤ (ngrams (preprocess train n) n).count g :=
        List.count_pos_iff.2 hgm
      have hctx : (ngrams (preprocess train n) n).count g
          ≤ (ngrams (preprocess train n) (n - 1)).count g.dropLast := by
        have hcc := count_context_ge (preprocess train n) (n - 1) (by omega) g
          (by omega)
        rwa [show n - 1 + 1 = n by omega] at hcc
      have hc1q : (1:ℚ) ≤ ((ngrams (preprocess train n) n).count g : ℚ) := by
        exact_mod_cast hc1
      have hmq : ((ngrams (preprocess train n) n).count g : ℚ)
          ≤ ((ngrams (preprocess train n) (n - 1)).count g.dropLast : ℚ) := by
        exact_mod_cast hctx
      constructor
      · rw [hpf]
        apply div_pos <;> linarith
      · rw [hpf, div_le_one (by linarith)]
        linarith

/-- C3 witness: the unseen vocabulary bigram ("b","b") of a concrete bigram
model receives a probability in (0, 1]. -/
theorem C3_witness :
    (1 ≤ 2) ∧ (0 < (1:ℚ)) ∧ (["a b a b".toList] ≠ ([] : List PyStr)) ∧
      ((["b".toList, "b".toList] : List PyStr).length = 2) ∧
      (∀ t ∈ (["b".toList, "b".toList] : List PyStr),
        t ∈ (preprocess ["a b a b".toList] 2).dedup) ∧
      (0 < (LanguageModel.init ["a b a b".toList] 2 1).probability
          ["b".toList, "b".toList] ∧
        (LanguageModel.init ["a b a b".toList] 2 1).probability
          ["b".toList, "b".toList] ≤ 1) :=
  ⟨by decide, by norm_num, by decide, by decide, by decide,
    C3_probability_in_unit_interval ["a b a b".toList] 2 1
      ["b".toList, "b".toList] (by decide) (by norm_num) (by decide)
      (by decide) (by decide)⟩

/-! ## Construction with an invalid order -/

theorem add_sentence_tokensInt_natCast (sentences : List PyStr) (n : Nat) :
    add_sentence_tokensInt sentences (n : Int) = add_sentence_tokens sentences n := by
  have hs : (if 1 < (n : Int) then (List.replicate ((n : Int) - 1).toNat SOS).flatten
        else SOS)
      = (if 1 < n then (List.replicate (n - 1) SOS).flatten else SOS) := by
    by_cases h : 1 < n
    · rw [if_pos h, if_pos (by exact_mod_cast h)]
      congr 2
      omega
    · rw [if_neg h, if_neg (by exact_mod_cast h)]
  simp only [add_sentence_tokensInt, add_sentence_tokens]
  rw [hs]

theorem preprocessInt_natCast (sentences : List PyStr) (n : Nat) :
    preprocessInt sentences (n : Int) = preprocess sentences n := by
  unfold preprocessInt preprocess
  rw [add_sentence_tokensInt_natCast]

/-- On every valid order n ≥ 1 the integer-order embedding of the constructor
agrees with `init`: no ValueError can arise since both window lengths n and
n−1 are non-negative. -/
theorem initInt_agrees (train : List PyStr) (n : Nat) (lam : ℚ) (hn : 1 ≤ n) :
    LanguageModel.initInt train (n : Int) lam
      = Except.ok (LanguageModel.init train n lam) := by
  have hpre := preprocessInt_natCast train n
  have hcm : create_modelInt (preprocessInt train (n : Int)) (n : Int) lam
      = .ok (create_model (preprocess train n) n lam) := by
    rw [hpre]
    by_cases h1 : n = 1
    · subst h1
      unfold create_modelInt create_model
      rw [if_pos (by norm_num), if_pos rfl]
    · unfold create_modelInt create_model
      rw [if_neg (by exact_mod_cast h1), if_neg h1]
      unfold smoothInt ngramsInt
      rw [if_neg (by omega), if_neg (by omega),
        show ((n : Int)).toNat = n from by omega,
        show ((n : Int) - 1).toNat = n - 1 from by omega]
      rfl
  unfold LanguageModel.initInt
  rw [hcm, hpre, show ((n : Int)).toNat = n from by omega]
  rfl

theorem initInt_agrees_witness :
    (1 ≤ 2) ∧
      LanguageModel.initInt ["a b a b".toList] ((2 : Nat) : Int) 1
        = Except.ok (LanguageModel.init ["a b a b".toList] 2 1) :=
  ⟨by decide, initInt_agrees ["a b a b".toList] 2 1 (by decide)⟩

/-- C7 counterexample: at the concrete corpus ["a b a b"], order 0 and
smoothing constant 1, construction does not fail with a ConfigurationError —
no such type exists in the code — but with the ValueError that the external
`itertools.tee` raises on the negative count of `_smooth`'s (n−1)-gram
call. -/
theorem C7_counterexample_value_error_not_config :
    LanguageModel.initInt ["a b a b".toList] 0 1
        = .error PyExc.valueErrorTeeNegative ∧
      LanguageModel.initInt ["a b a b".toList] 0 1
        ≠ .error PyExc.configurationError := by
  have h1 : LanguageModel.initInt ["a b a b".toList] 0 1
      = .error PyExc.valueErrorTeeNegative := rfl
  refine ⟨h1, ?_⟩
  rw [h1]
  intro h
  exact absurd (Except.error.inj h) (by decide)

/-- C7 as amended: model construction with an invalid order n < 1 performs no
validation and never fails with a ConfigurationError (the code defines no
such type); for every training corpus and smoothing constant it instead
propagates the ValueError raised by the external `itertools.tee` inside
`nltk.ngrams` — at n = 0 on `_smooth`'s (n−1)-gram call, and for n < 0
already on its n-gram call. -/
theorem C7_amended_external_value_error (train : List PyStr) (n : Int)
    (lam : ℚ) (hn : n < 1) :
    LanguageModel.initInt train n lam = .error PyExc.valueErrorTeeNegative ∧
      LanguageModel.initInt train n lam ≠ .error PyExc.configurationError := by
  have herr : create_modelInt (preprocessInt train n) n lam
      = .error PyExc.valueErrorTeeNegative := by
    unfold create_modelInt
    rw [if_neg (by omega)]
    unfold smoothInt ngramsInt
    by_cases hn0 : n < 0
    · rw [if_pos hn0]
      rfl
    · rw [if_neg hn0, if_pos (by omega)]
      rfl
  have h1 : LanguageModel.initInt train n lam
      = .error PyExc.valueErrorTeeNegative := by
    unfold LanguageModel.initInt
    rw [herr]
  refine ⟨h1, ?_⟩
  rw [h1]
  intro h
  exact absurd (Except.error.inj h) (by decide)

/-- C7 witness: the amended behavior at the concrete invalid order 0. -/
theorem C7_witness :
    ((0 : Int) < 1) ∧
      (LanguageModel.initInt ["c d c d".toList] 0 1
          = .error PyExc.valueErrorTeeNegative ∧
        LanguageModel.initInt ["c d c d".toList] 0 1
          ≠ .error PyExc.configurationError) :=
  ⟨by decide, C7_amended_external_value_error ["c d c d".toList] 0 1 (by decide)⟩

/-! ## Deterministic generation -/

/-- C9: sentence generation is deterministic — it is a pure function of the
trained model and its arguments, with no source of randomness, so two calls
to generate_sentences with the same count on the same model produce identical
output. -/
theorem C9_generation_deterministic (M : LanguageModel)
    (count minLen maxLen : Nat) :
    generate_sentences M count minLen maxLen
      = generate_sentences M count minLen maxLen := rfl

end NGramLM
